import Mathlib

/-!
Shallow embedding of the layout-reconstruction core of the OCR pipeline
(`main_easy.py` and the `EXP` variant): token normalisation
(`fix_common_ocr_errors`), line grouping (`group_by_lines`), stable
reading-order sorting, layout classification (`analyze_layout`) and
Markdown serialisation (`to_markdown`).

Strings are modelled as Lean `String`/`List Char`; Python floats are
modelled as exact rationals `ℚ`; a Python exception aborting a page is
modelled by `Option` (`none` = the call raised).
-/

namespace OCR

/-- The ASCII whitespace characters matched by Python `\s` (and stripped
by `str.strip()`). -/
def pyIsSpace (c : Char) : Bool :=
  c = ' ' || c = '\t' || c = '\n' || c = '\r' || c = '\x0b' || c = '\x0c'

/-- Character class `[\s_]` used by the URL-repair regexes. -/
def isSpaceU (c : Char) : Bool :=
  pyIsSpace c || c = '_'

/-- Python word character `\w` (ASCII range). -/
def isWordChar (c : Char) : Bool :=
  c.isAlphanum || c = '_'

/-- Python `str.strip()`: remove leading and trailing whitespace. -/
def pyStrip (s : String) : String :=
  String.mk (((s.toList.dropWhile pyIsSpace).reverse.dropWhile pyIsSpace).reverse)

/-- Python `" ".join(texts)`. -/
def joinSpace (texts : List String) : String :=
  String.intercalate " " texts

/-- One left-to-right pass of `re.sub`: at each position try `step`; on a
match emit the replacement and resume after the matched text, otherwise
keep the character and move one position right.  `fuel` bounds the number
of scan steps; every `step` used below consumes at least one character,
so `fuel = length` never runs out early. -/
def rescan (step : List Char → Option (List Char × List Char)) :
    Nat → List Char → List Char
  | 0, l => l
  | _ + 1, [] => []
  | fuel + 1, c :: cs =>
    match step (c :: cs) with
    | some (out, rest) => out ++ rescan step fuel rest
    | none => c :: rescan step fuel cs

/-- `re.sub` specialised to the fixed-pattern steps below. -/
def reSub (step : List Char → Option (List Char × List Char)) (s : String) : String :=
  String.mk (rescan step s.toList.length s.toList)

/-- Step 1 matcher: `https?I+` (IGNORECASE) at the head of the list;
returns the replacement `https://` and the remainder. -/
def stepHttps : List Char → Option (List Char × List Char)
  | c1 :: c2 :: c3 :: c4 :: rest =>
    if c1.toLower = 'h' ∧ c2.toLower = 't' ∧ c3.toLower = 't' ∧ c4.toLower = 'p' then
      match rest with
      | c5 :: r5 =>
        if c5.toLower = 's' then
          match r5 with
          | c6 :: r6 =>
            if c6.toLower = 'i' then
              some ("https://".toList, r6.dropWhile (fun c => c.toLower = 'i'))
            else none
          | [] => none
        else if c5.toLower = 'i' then
          some ("https://".toList, r5.dropWhile (fun c => c.toLower = 'i'))
        else none
      | [] => none
    else none
  | _ => none

/-- Step 2 matcher: the alternation `wwW|wWw|WwW|WWW` at the head of the
list, replaced by `www`.  (Note: the source pattern lists exactly these
four case variants; `Www`, `wWW` and `WWw` are not alternatives.) -/
def stepWww : List Char → Option (List Char × List Char)
  | 'w' :: 'w' :: 'W' :: r => some ("www".toList, r)
  | 'w' :: 'W' :: 'w' :: r => some ("www".toList, r)
  | 'W' :: 'w' :: 'W' :: r => some ("www".toList, r)
  | 'W' :: 'W' :: 'W' :: r => some ("www".toList, r)
  | _ => none

/-- Step 3 matcher: `[\s_]+com[\s_]+` at the head, replaced by `.com.`.
Both runs are taken greedily; no backtracking is possible because the
class `[\s_]` cannot match `c`. -/
def stepComBoth : List Char → Option (List Char × List Char)
  | c :: cs =>
    if isSpaceU c then
      match cs.dropWhile isSpaceU with
      | 'c' :: 'o' :: 'm' :: r2 =>
        match r2 with
        | d :: ds =>
          if isSpaceU d then some (".com.".toList, ds.dropWhile isSpaceU)
          else none
        | [] => none
      | _ => none
    else none
  | [] => none

/-- Step 4 matcher: `[\s_]+com` at the head, replaced by `.com`. -/
def stepCom : List Char → Option (List Char × List Char)
  | c :: cs =>
    if isSpaceU c then
      match cs.dropWhile isSpaceU with
      | 'c' :: 'o' :: 'm' :: r2 => some (".com".toList, r2)
      | _ => none
    else none
  | [] => none

/-- Step 5 matcher: `[\s_]+` at the head, replaced by `.`. -/
def stepDots : List Char → Option (List Char × List Char)
  | c :: cs =>
    if isSpaceU c then some (['.'], cs.dropWhile isSpaceU)
    else none
  | [] => none

/-- Step 6: `(?<=\w)[,;](?=\w)` replaced by `.`; the lookaround examines
the original neighbours, so this is a pointwise rewrite carrying the
previous original character. -/
def subPunct (prev : Option Char) : List Char → List Char
  | [] => []
  | c :: cs =>
    (if (c == ',' || c == ';')
        && (match prev with | some p => isWordChar p | none => false)
        && (match cs with | d :: _ => isWordChar d | [] => false)
     then '.' else c) :: subPunct (some c) cs

/-- Step 7 matcher: `\.\.+` at the head, replaced by `.`. -/
def stepDedup : List Char → Option (List Char × List Char)
  | '.' :: '.' :: r => some (['.'], r.dropWhile (fun c => c = '.'))
  | _ => none

/-- Step 8 matcher: `\s*@\s*` at the head (the match must contain `@`),
replaced by `@`. -/
def stepAt : List Char → Option (List Char × List Char)
  | c :: cs =>
    if c = '@' then some (['@'], cs.dropWhile pyIsSpace)
    else if pyIsSpace c then
      match cs.dropWhile pyIsSpace with
      | '@' :: r => some (['@'], r.dropWhile pyIsSpace)
      | _ => none
    else none
  | [] => none

/-- Step 9 matcher: `\s*\.\s*` at the head (the match must contain `.`),
replaced by `.`. -/
def stepDot : List Char → Option (List Char × List Char)
  | c :: cs =>
    if c = '.' then some (['.'], cs.dropWhile pyIsSpace)
    else if pyIsSpace c then
      match cs.dropWhile pyIsSpace with
      | '.' :: r => some (['.'], r.dropWhile pyIsSpace)
      | _ => none
    else none
  | [] => none

/-- `fix_common_ocr_errors(text)`: the nine substitutions applied in
source order. -/
def fix_common_ocr_errors (text : String) : String :=
  let t1 := reSub stepHttps text
  let t2 := reSub stepWww t1
  let t3 := reSub stepComBoth t2
  let t4 := reSub stepCom t3
  let t5 := reSub stepDots t4
  let t6 := String.mk (subPunct none t5.toList)
  let t7 := reSub stepDedup t6
  let t8 := reSub stepAt t7
  let t9 := reSub stepDot t8
  t9

/-- Axis-aligned bounding box `[min_x, min_y, max_x, max_y]` (integer
rounded, as stored in the block dict). -/
structure Bbox where
  x1 : Int
  y1 : Int
  x2 : Int
  y2 : Int
deriving Repr, DecidableEq

/-- The block dict built from one OCR fragment: normalised text,
confidence, integer bbox and rational midpoints. -/
structure Block where
  text : String
  conf : ℚ
  bbox : Bbox
  center_y : ℚ
  center_x : ℚ
deriving Repr, DecidableEq

/-- Python `int(q)`: truncation toward zero. -/
def pyInt (q : ℚ) : Int :=
  if 0 ≤ q then q.floor else -((-q).floor)

/-- Python `min` over a nonempty list given as head and tail. -/
def pyMin (x : ℚ) (xs : List ℚ) : ℚ := xs.foldl min x

/-- Python `max` over a nonempty list given as head and tail. -/
def pyMax (x : ℚ) (xs : List ℚ) : ℚ := xs.foldl max x

/-- Insert `x` into `l`, passing over elements with strictly smaller key:
the insertion step of a stable sort matching Python `sorted(key=...)`. -/
def insertKeyed {α β : Type} [LinearOrder β] (key : α → β) (x : α) : List α → List α
  | [] => [x]
  | y :: ys => if key y < key x then y :: insertKeyed key x ys else x :: y :: ys

/-- Python `sorted(l, key=...)`: a stable sort by the given key. -/
def sortedKey {α β : Type} [LinearOrder β] (key : α → β) : List α → List α
  | [] => []
  | x :: xs => insertKeyed key x (sortedKey key xs)

/-- The y midpoint used by `group_by_lines`:
`(box['bbox'][1] + box['bbox'][3]) / 2`. -/
def lineY (b : Block) : ℚ :=
  ((b.bbox.y1 : ℚ) + (b.bbox.y2 : ℚ)) / 2

/-- The scan loop of `group_by_lines`, carrying the accumulated `lines`,
the open `current_line` and `prev_y`. -/
def groupGo (y_thresh : ℚ) :
    List Block → List (List Block) → List Block → Option ℚ → List (List Block)
  | [], lines, current_line, _ =>
    if current_line.isEmpty then lines else lines ++ [current_line]
  | box :: boxes, lines, current_line, prev_y =>
    let y := lineY box
    match prev_y with
    | none => groupGo y_thresh boxes lines (current_line ++ [box]) (some y)
    | some py =>
      if |y - py| < y_thresh then
        groupGo y_thresh boxes lines (current_line ++ [box]) (some y)
      else
        groupGo y_thresh boxes (lines ++ [current_line]) [box] (some y)

/-- `group_by_lines(boxes, y_thresh=24)`. -/
def group_by_lines (boxes : List Block) (y_thresh : ℚ := 24) : List (List Block) :=
  groupGo y_thresh boxes [] [] none

/-- A section of the structured document: `{"paragraph": text}` or
`{"table": rows}`. -/
inductive Section where
  | paragraph : String → Section
  | table : List (List String) → Section
deriving Repr, DecidableEq

/-- `true` exactly for table sections (`"table" in sec`). -/
def Section.isTable : Section → Bool
  | .table _ => true
  | _ => false

/-- The structured document `{"title": ..., "sections": [...]}`. -/
structure Structured where
  title : String
  sections : List Section
deriving Repr, DecidableEq

/-- The body of the classifier loop for one line: sort the line
left-to-right, extract the texts, then apply the title / table /
paragraph rules in order.  The carried state is `(structured, title_set)`.
(`texts.headD ""` stands for `texts[0]`, reachable only on nonempty
lines, which is all the grouper produces.) -/
def classifyStep (st : Structured × Bool) (line : List Block) : Structured × Bool :=
  let line2 := sortedKey (fun b => b.bbox.x1) line
  let texts := line2.map Block.text
  if st.2 = false ∧ (joinSpace texts).length > 5 then
    ({ st.1 with title := joinSpace texts }, true)
  else if line2.length ≥ 2 then
    match st.1.sections.getLast? with
    | some (Section.table rows) =>
      ({ st.1 with sections := st.1.sections.dropLast ++ [Section.table (rows ++ [texts])] }, st.2)
    | _ =>
      ({ st.1 with sections := st.1.sections ++ [Section.table [texts]] }, st.2)
  else
    ({ st.1 with sections := st.1.sections ++ [Section.paragraph (texts.headD "")] }, st.2)

/-- The initial classifier state: empty document, `title_set = False`. -/
def initState : Structured × Bool :=
  ({ title := "", sections := [] }, false)

/-- The classification pass of `analyze_layout`: fold the per-line rules
over the grouped lines. -/
def classify (lines : List (List Block)) : Structured :=
  (List.foldl classifyStep initState lines).1

/-- One raw OCR tuple `(bbox, text, conf)`; the bbox is a list of corner
points. -/
structure OcrResult where
  box : List (ℚ × ℚ)
  text : String
  conf : ℚ
deriving Repr, DecidableEq

/-- Step 1 of `analyze_layout` for one fragment: skip whitespace-only
text (`none` inside `some`), otherwise normalise the text and project the
corner points to an axis-aligned bbox.  An empty corner list makes
`min()` raise, aborting the whole call (outer `none`). -/
def mkBlock (r : OcrResult) : Option (Option Block) :=
  if pyStrip r.text = "" then some none
  else
    match r.box with
    | [] => none
    | p :: ps =>
      let text := fix_common_ocr_errors r.text
      let x1 := pyMin p.1 (ps.map Prod.fst)
      let x2 := pyMax p.1 (ps.map Prod.fst)
      let y1 := pyMin p.2 (ps.map Prod.snd)
      let y2 := pyMax p.2 (ps.map Prod.snd)
      some (some
        { text := pyStrip text
          conf := r.conf
          bbox := ⟨pyInt x1, pyInt y1, pyInt x2, pyInt y2⟩
          center_y := (y1 + y2) / 2
          center_x := (x1 + x2) / 2 })

/-- The fragment loop of `analyze_layout`: build the block list, aborting
on the first fragment whose geometry raises. -/
def buildBlocks : List OcrResult → Option (List Block)
  | [] => some []
  | r :: rs =>
    match mkBlock r with
    | none => none
    | some none => buildBlocks rs
    | some (some b) => (buildBlocks rs).map (fun bs => b :: bs)

/-- `analyze_layout(ocr_results)`: blocks, stable sort by `center_y`,
line grouping, classification.  `none` models the call raising. -/
def analyze_layout (ocr_results : List OcrResult) : Option Structured :=
  (buildBlocks ocr_results).map (fun blocks =>
    classify (group_by_lines (sortedKey Block.center_y blocks) 24))

/-- The lines contributed by one section in `to_markdown` of
`main_easy.py`: paragraphs wrapped in blank lines; tables render only the
header and separator when the first row has more than one column, and a
bare cell otherwise.  (`headD` stands for indexing `table[0]` /
`table[0][0]`, reachable only on nonempty tables/rows, which is all the
classifier produces.) -/
def sectionLines (sec : Section) : List String :=
  match sec with
  | .paragraph p => ["\n" ++ p ++ "\n"]
  | .table rows =>
    let t0 := rows.headD []
    if t0.length > 1 then
      ["| " ++ String.intercalate " | " t0 ++ " |",
       "| " ++ String.intercalate " | " (List.replicate t0.length "---") ++ " |"]
    else
      [t0.headD ""]

/-- `to_markdown(structured)` of `main_easy.py`. -/
def to_markdown (structured : Structured) : String :=
  String.intercalate "\n"
    (("# " ++ structured.title) :: structured.sections.flatMap sectionLines)

end OCR

namespace EXP

/-- The lines contributed by one section in `to_markdown` of
`EXP/main_easy.py`: tables always render the pipe header, the separator
and then every subsequent row. -/
def sectionLines (sec : OCR.Section) : List String :=
  match sec with
  | .paragraph p => ["\n" ++ p ++ "\n"]
  | .table rows =>
    let t0 := rows.headD []
    ["| " ++ String.intercalate " | " t0 ++ " |",
     "| " ++ String.intercalate " | " (List.replicate t0.length "---") ++ " |"]
    ++ (rows.drop 1).map (fun row => "| " ++ String.intercalate " | " row ++ " |")

/-- `to_markdown(structured)` of `EXP/main_easy.py`. -/
def to_markdown (structured : OCR.Structured) : String :=
  String.intercalate "\n"
    (("# " ++ structured.title) :: structured.sections.flatMap EXP.sectionLines)

end EXP

namespace OCR

/-- No two adjacent sections are both tables. -/
def noAdjacentTables (secs : List Section) : Prop :=
  List.Chain' (fun a b => ¬(a.isTable = true ∧ b.isTable = true)) secs

/-- Two OCR fragments that agree on geometry and text and may differ only
in the confidence value. -/
def sameExceptConf (r1 r2 : OcrResult) : Prop :=
  r1.box = r2.box ∧ r1.text = r2.text

/-- Two blocks that agree on every field except possibly `conf`. -/
def blockSim (b1 b2 : Block) : Prop :=
  b1.text = b2.text ∧ b1.bbox = b2.bbox ∧ b1.center_y = b2.center_y ∧ b1.center_x = b2.center_x

/-- A synthetic block for the classifier scenarios. -/
def mkBlk (t : String) (x1 y1 x2 y2 : Int) : Block :=
  { text := t, conf := 1, bbox := ⟨x1, y1, x2, y2⟩,
    center_y := ((y1 : ℚ) + (y2 : ℚ)) / 2, center_x := ((x1 : ℚ) + (x2 : ℚ)) / 2 }

/-- Round-trip scenario, Line A: one block `"Document Title Here"`. -/
def lineA : List Block := [mkBlk "Document Title Here" 10 10 300 30]

/-- Round-trip scenario, Line B: two blocks `["Name", "Age"]`. -/
def lineB : List Block := [mkBlk "Name" 10 50 60 70, mkBlk "Age" 100 50 140 70]

/-- Round-trip scenario, Line C: two blocks `["Ali", "10"]`. -/
def lineC : List Block := [mkBlk "Ali" 10 90 60 110, mkBlk "10" 100 90 140 110]

/-- Single-block line `"Just a paragraph."` (used after a title line). -/
def lineD : List Block := [mkBlk "Just a paragraph." 10 50 200 70]

end OCR

namespace OCR

theorem groupGo_flatten (t : ℚ) (bs : List Block) :
    ∀ (lines : List (List Block)) (cur : List Block) (prev : Option ℚ),
      (groupGo t bs lines cur prev).flatten = lines.flatten ++ cur ++ bs := by
  induction bs with
  | nil =>
    intro lines cur prev
    by_cases h : cur = []
    · simp [groupGo, h]
    · simp [groupGo, h]
  | cons b bs ih =>
    intro lines cur prev
    cases prev with
    | none =>
      simp only [groupGo]
      rw [ih]
      simp
    | some py =>
      simp only [groupGo]
      by_cases h : |lineY b - py| < t
      · rw [if_pos h, ih]
        simp
      · rw [if_neg h, ih]
        simp

theorem groupGo_ne_nil (t : ℚ) (bs : List Block) :
    ∀ (lines : List (List Block)) (cur : List Block) (prev : Option ℚ),
      (∀ l ∈ lines, l ≠ []) → (cur ≠ [] ∨ prev = none) →
      ∀ l ∈ groupGo t bs lines cur prev, l ≠ [] := by
  induction bs with
  | nil =>
    intro lines cur prev hlines _ l hl
    by_cases h : cur = []
    · simp only [groupGo, h, List.isEmpty_nil, if_pos] at hl
      exact hlines l hl
    · simp only [groupGo, List.isEmpty_eq_true, h, if_neg, not_false_iff] at hl
      rcases List.mem_append.mp hl with h1 | h1
      · exact hlines l h1
      · rw [List.mem_singleton.mp h1]; exact h
  | cons b bs ih =>
    intro lines cur prev hlines hcur l hl
    cases prev with
    | none =>
      simp only [groupGo] at hl
      exact ih lines (cur ++ [b]) (some (lineY b)) hlines (Or.inl (by simp)) l hl
    | some py =>
      simp only [groupGo] at hl
      by_cases h : |lineY b - py| < t
      · rw [if_pos h] at hl
        exact ih lines (cur ++ [b]) (some (lineY b)) hlines (Or.inl (by simp)) l hl
      · rw [if_neg h] at hl
        have hcur' : cur ≠ [] := by
          rcases hcur with h1 | h1
          · exact h1
          · cases h1
        refine ih (lines ++ [cur]) [b] (some (lineY b)) ?_ (Or.inl (by simp)) l hl
        intro l' hl'
        rcases List.mem_append.mp hl' with h1 | h1
        · exact hlines l' h1
        · rw [List.mem_singleton.mp h1]; exact hcur'

/-- C3: for every list of blocks and every threshold, `group_by_lines`
returns only non-empty lines whose in-order concatenation is exactly the
input block list, and the empty input yields the empty output. -/
theorem group_by_lines_partition :
    ∀ (boxes : List Block) (y_thresh : ℚ),
      (∀ l ∈ group_by_lines boxes y_thresh, l ≠ []) ∧
      (group_by_lines boxes y_thresh).flatten = boxes ∧
      group_by_lines ([] : List Block) y_thresh = [] := by
  intro boxes y_thresh
  refine ⟨groupGo_ne_nil y_thresh boxes [] [] none (by simp) (Or.inr rfl), ?_, rfl⟩
  rw [group_by_lines, groupGo_flatten]
  simp

/-- C1: the classifier applies exactly one of the three rules
(title, table row, paragraph) to each line, in that order, and on the
three synthetic round-trip lines it yields the title
`"Document Title Here"` and the single table section
`[["Name","Age"],["Ali","10"]]`. -/
theorem classifier_rules_and_roundtrip :
    (∀ (st : Structured × Bool) (line : List Block),
      (st.2 = false ∧
          (joinSpace ((sortedKey (fun b => b.bbox.x1) line).map Block.text)).length > 5 ∧
          classifyStep st line =
            ({ st.1 with
                title := joinSpace ((sortedKey (fun b => b.bbox.x1) line).map Block.text) },
              true)) ∨
      (¬(st.2 = false ∧
          (joinSpace ((sortedKey (fun b => b.bbox.x1) line).map Block.text)).length > 5) ∧
          (sortedKey (fun b => b.bbox.x1) line).length ≥ 2 ∧
          classifyStep st line =
            (match st.1.sections.getLast? with
             | some (Section.table rows) =>
               ({ st.1 with
                   sections := st.1.sections.dropLast ++
                     [Section.table
                       (rows ++ [(sortedKey (fun b => b.bbox.x1) line).map Block.text])] },
                 st.2)
             | _ =>
               ({ st.1 with
                   sections := st.1.sections ++
                     [Section.table [(sortedKey (fun b => b.bbox.x1) line).map Block.text]] },
                 st.2))) ∨
      (¬(st.2 = false ∧
          (joinSpace ((sortedKey (fun b => b.bbox.x1) line).map Block.text)).length > 5) ∧
          ¬((sortedKey (fun b => b.bbox.x1) line).length ≥ 2) ∧
          classifyStep st line =
            ({ st.1 with
                sections := st.1.sections ++
                  [Section.paragraph
                    (((sortedKey (fun b => b.bbox.x1) line).map Block.text).headD "")] },
              st.2))) ∧
    classify [lineA, lineB, lineC] =
      { title := "Document Title Here",
        sections := [Section.table [["Name", "Age"], ["Ali", "10"]]] } := by
  constructor
  · intro st line
    by_cases h1 : st.2 = false ∧
        (joinSpace ((sortedKey (fun b => b.bbox.x1) line).map Block.text)).length > 5
    · exact Or.inl ⟨h1.1, h1.2, by simp only [classifyStep, if_pos h1]⟩
    · by_cases h2 : (sortedKey (fun b => b.bbox.x1) line).length ≥ 2
      · exact Or.inr (Or.inl ⟨h1, h2, by simp only [classifyStep, if_neg h1, if_pos h2]⟩)
      · exact Or.inr (Or.inr ⟨h1, h2, by simp only [classifyStep, if_neg h1, if_neg h2]⟩)
  · decide

/-- C2 evidence: on a two-column table with a second row, the
`main_easy.py` serializer emits only the header and separator (dropping
the row `["c","d"]`), while the `EXP` serializer emits the subsequent row
as the claim states. -/
theorem to_markdown_drops_table_rows :
    to_markdown { title := "T", sections := [Section.table [["a", "b"], ["c", "d"]]] } =
      "# T\n| a | b |\n| --- | --- |" ∧
    EXP.to_markdown { title := "T", sections := [Section.table [["a", "b"], ["c", "d"]]] } =
      "# T\n| a | b |\n| --- | --- |\n| c | d |" := by
  constructor
  · rfl
  · rfl

/-- C4 counterexample: `Www` is a case-permutation of `www`, yet step 2
of the normalizer leaves it unchanged (its pattern lists only
`wwW|wWw|WwW|WWW`). -/
theorem step2_misses_Www :
    reSub stepWww "Www" = "Www" ∧ "Www" ≠ "www" := by
  constructor
  · rfl
  · decide

/-- C4 amended: step 2 rewrites exactly the four case-permutations
`wwW`, `wWw`, `WwW`, `WWW` to `www`; `www` itself is already lowercase,
and the remaining permutations `Www`, `wWW`, `WWw` are left unchanged. -/
theorem step2_exact_permutations :
    reSub stepWww "wwW" = "www" ∧ reSub stepWww "wWw" = "www" ∧
    reSub stepWww "WwW" = "www" ∧ reSub stepWww "WWW" = "www" ∧
    reSub stepWww "www" = "www" ∧ reSub stepWww "Www" = "Www" ∧
    reSub stepWww "wWW" = "wWW" ∧ reSub stepWww "WWw" = "WWw" := by
  refine ⟨rfl, rfl, rfl, rfl, rfl, rfl, rfl, rfl⟩

end OCR

namespace OCR

theorem classifyStep_chain (st : Structured × Bool) (line : List Block)
    (h : noAdjacentTables st.1.sections) :
    noAdjacentTables ((classifyStep st line).1.sections) := by
  unfold noAdjacentTables at h ⊢
  unfold classifyStep
  by_cases h1 : st.2 = false ∧
      (joinSpace ((sortedKey (fun b => b.bbox.x1) line).map Block.text)).length > 5
  · rw [if_pos h1]
    exact h
  · rw [if_neg h1]
    by_cases h2 : (sortedKey (fun b => b.bbox.x1) line).length ≥ 2
    · rw [if_pos h2]
      rcases hlast : st.1.sections.getLast? with _ | sec
      · simp only
        rw [List.chain'_append]
        refine ⟨h, List.chain'_singleton _, ?_⟩
        intro x hx
        rw [hlast] at hx
        cases hx
      · cases sec with
        | paragraph p =>
          simp only
          rw [List.chain'_append]
          refine ⟨h, List.chain'_singleton _, ?_⟩
          intro x hx y hy
          rw [hlast] at hx
          cases hx
          rw [List.head?_cons] at hy
          cases hy
          intro hc
          exact absurd hc.1 (by simp [Section.isTable])
        | table rows =>
          simp only
          have hdecomp := List.dropLast_append_getLast? _ hlast
          have hchain := h
          rw [← hdecomp, List.chain'_append] at hchain
          rw [List.chain'_append]
          refine ⟨hchain.1, List.chain'_singleton _, ?_⟩
          intro x hx y hy
          rw [List.head?_cons] at hy
          cases hy
          intro hc
          have := hchain.2.2 x hx (Section.table rows) (by simp)
          exact this ⟨hc.1, by simp [Section.isTable]⟩
    · rw [if_neg h2]
      simp only
      rw [List.chain'_append]
      refine ⟨h, List.chain'_singleton _, ?_⟩
      intro x hx y hy
      rw [List.head?_cons] at hy
      cases hy
      intro hc
      exact absurd hc.2 (by simp [Section.isTable])

theorem foldl_classify_chain (lines : List (List Block)) :
    ∀ st : Structured × Bool, noAdjacentTables st.1.sections →
      noAdjacentTables ((List.foldl classifyStep st lines).1.sections) := by
  induction lines with
  | nil => intro st h; exact h
  | cons line lines ih =>
    intro st h
    rw [List.foldl_cons]
    exact ih _ (classifyStep_chain st line h)

/-- C6: for every input to the classifier, the resulting document never
contains two table sections adjacent in `sections`: a multi-block line
extends a trailing table section, and a new table section opens only when
the last section is not a table (or there is none). -/
theorem classify_no_adjacent_tables (lines : List (List Block)) :
    noAdjacentTables (classify lines).sections := by
  exact foldl_classify_chain lines initState (by constructor)

theorem classifyStep_flag_true (st : Structured × Bool) (line : List Block)
    (h : st.2 = true) :
    (classifyStep st line).1.title = st.1.title ∧ (classifyStep st line).2 = true := by
  unfold classifyStep
  have h1 : ¬(st.2 = false ∧
      (joinSpace ((sortedKey (fun b => b.bbox.x1) line).map Block.text)).length > 5) := by
    rintro ⟨hf, -⟩
    rw [h] at hf
    cases hf
  rw [if_neg h1]
  by_cases h2 : (sortedKey (fun b => b.bbox.x1) line).length ≥ 2
  · rw [if_pos h2]
    rcases st.1.sections.getLast? with _ | sec
    · exact ⟨rfl, h⟩
    · cases sec with
      | paragraph p => exact ⟨rfl, h⟩
      | table rows => exact ⟨rfl, h⟩
  · rw [if_neg h2]
    exact ⟨rfl, h⟩

theorem classifyStep_flag_false (st : Structured × Bool) (line : List Block)
    (h : (classifyStep st line).2 = false) :
    (classifyStep st line).1.title = st.1.title ∧ st.2 = false := by
  by_cases h1 : st.2 = false ∧
      (joinSpace ((sortedKey (fun b => b.bbox.x1) line).map Block.text)).length > 5
  · exfalso
    unfold classifyStep at h
    rw [if_pos h1] at h
    cases h
  · constructor
    · unfold classifyStep
      rw [if_neg h1]
      by_cases h2 : (sortedKey (fun b => b.bbox.x1) line).length ≥ 2
      · rw [if_pos h2]
        rcases st.1.sections.getLast? with _ | sec
        · rfl
        · cases sec with
          | paragraph p => rfl
          | table rows => rfl
      · rw [if_neg h2]
    · by_contra hne
      have hst : st.2 = true := by
        cases hv : st.2
        · exact absurd hv hne
        · rfl
      have := (classifyStep_flag_true st line hst).2
      rw [this] at h
      cases h

theorem foldl_title_of_flag_true (lines : List (List Block)) :
    ∀ st : Structured × Bool, st.2 = true →
      (List.foldl classifyStep st lines).1.title = st.1.title ∧
      (List.foldl classifyStep st lines).2 = true := by
  induction lines with
  | nil => intro st h; exact ⟨rfl, h⟩
  | cons line lines ih =>
    intro st h
    rw [List.foldl_cons]
    have hstep := classifyStep_flag_true st line h
    have := ih (classifyStep st line) hstep.2
    exact ⟨this.1.trans hstep.1, this.2⟩

theorem foldl_title_of_flag_false (lines : List (List Block)) :
    ∀ st : Structured × Bool, (List.foldl classifyStep st lines).2 = false →
      (List.foldl classifyStep st lines).1.title = st.1.title := by
  induction lines with
  | nil => intro st _; rfl
  | cons line lines ih =>
    intro st h
    rw [List.foldl_cons] at h ⊢
    have hflag : (classifyStep st line).2 = false := by
      by_contra hne
      have ht : (classifyStep st line).2 = true := by
        cases hv : (classifyStep st line).2
        · exact absurd hv hne
        · rfl
      have := (foldl_title_of_flag_true lines (classifyStep st line) ht).2
      rw [this] at h
      cases h
    exact (ih (classifyStep st line) h).trans (classifyStep_flag_false st line hflag).1

/-- C7: across a whole classification pass the title is assigned by at
most one line: if the `title_set` flag never became true the title is
still the empty string, and once a prefix of the lines has set the flag,
processing the remaining lines leaves the title unchanged. -/
theorem classify_title_at_most_once (lines : List (List Block)) :
    ((List.foldl classifyStep initState lines).2 = false →
      (List.foldl classifyStep initState lines).1.title = "") ∧
    (∀ l1 l2 : List (List Block), lines = l1 ++ l2 →
      (List.foldl classifyStep initState l1).2 = true →
      (List.foldl classifyStep initState lines).1.title =
        (List.foldl classifyStep initState l1).1.title) := by
  constructor
  · intro h
    exact foldl_title_of_flag_false lines initState h
  · intro l1 l2 hsplit hflag
    rw [hsplit, List.foldl_append]
    exact (foldl_title_of_flag_true l2 _ hflag).1

/-- Witness for C7: after the title line `lineA` sets the flag, the later
paragraph line `lineD` leaves the title unchanged, and the decomposition
`[lineA] ++ [lineD]` discharges both hypotheses. -/
theorem classify_title_at_most_once_witness :
    (List.foldl classifyStep initState [lineA, lineD]).1.title =
      (List.foldl classifyStep initState [lineA]).1.title :=
  (classify_title_at_most_once [lineA, lineD]).2 [lineA] [lineD] rfl (by decide)

theorem buildBlocks_all_blank (rs : List OcrResult) (h : ∀ r ∈ rs, pyStrip r.text = "") :
    buildBlocks rs = some [] := by
  induction rs with
  | nil => rfl
  | cons r rs ih =>
    unfold buildBlocks mkBlock
    rw [if_pos (h r (List.mem_cons_self r rs))]
    exact ih (fun r' hr' => h r' (List.mem_cons_of_mem r hr'))

/-- C8: a page with zero non-empty fragments is not an error: the
pipeline returns the document with empty title and empty sections, and
its Markdown form is the single line `"# "`. -/
theorem empty_page_graceful (rs : List OcrResult) (h : ∀ r ∈ rs, pyStrip r.text = "") :
    analyze_layout rs = some { title := "", sections := [] } ∧
    to_markdown { title := "", sections := [] } = "# " := by
  constructor
  · rw [analyze_layout, buildBlocks_all_blank rs h]
    rfl
  · rfl

/-- Witness for C8: a page consisting of one whitespace-only fragment. -/
theorem empty_page_graceful_witness :
    analyze_layout [⟨[(0, 0), (1, 1)], "  ", 1⟩] = some { title := "", sections := [] } ∧
    to_markdown { title := "", sections := [] } = "# " :=
  empty_page_graceful [⟨[(0, 0), (1, 1)], "  ", 1⟩] (by decide)

end OCR

namespace OCR

theorem buildBlocks_none_of_empty_box (rs : List OcrResult) :
    ∀ r ∈ rs, r.box = [] → pyStrip r.text ≠ "" → buildBlocks rs = none := by
  induction rs with
  | nil => intro r hr; cases hr
  | cons r0 rs ih =>
    intro r hr hbox htext
    rcases List.mem_cons.mp hr with h0 | h0
    · subst h0
      have hmk : mkBlock r = none := by
        simp only [mkBlock, if_neg htext, hbox]
      unfold buildBlocks
      rw [hmk]
    · unfold buildBlocks
      rcases hmk : mkBlock r0 with _ | ob
      · rfl
      · cases ob with
        | none => exact ih r h0 hbox htext
        | some b =>
          rw [ih r h0 hbox htext]
          rfl

/-- C5 counterexample: a page holding one fragment with an empty corner
list and one well-formed fragment does not yield a document for the rest
of the page — the whole call aborts (`min()` over an empty sequence
raises). -/
theorem malformed_geometry_counterexample :
    analyze_layout [⟨[], "Hello", 1⟩, ⟨[(0, 0), (10, 10), (10, 0), (0, 10)], "World", 1⟩] =
      none := by
  rfl

/-- C5 amended: malformed geometry is not detected: a non-blank fragment
with an empty corner list aborts the whole page rather than being
skipped, while a fragment with fewer than four (but at least one) corner
points is not rejected — it is processed normally using the bounding box
of the points present. -/
theorem malformed_geometry_not_skipped :
    (∀ (rs : List OcrResult) (r : OcrResult), r ∈ rs → r.box = [] → pyStrip r.text ≠ "" →
      analyze_layout rs = none) ∧
    analyze_layout [⟨[(0, 0), (10, 20)], "ab", 1⟩] =
      some { title := "", sections := [Section.paragraph "ab"] } := by
  constructor
  · intro rs r hr hbox htext
    rw [analyze_layout, buildBlocks_none_of_empty_box rs r hr hbox htext]
    rfl
  · rfl

/-- Witness for C5's amended claim: a single non-blank fragment with an
empty corner list aborts the page. -/
theorem malformed_geometry_not_skipped_witness :
    analyze_layout [⟨[], "x", 1⟩] = none :=
  malformed_geometry_not_skipped.1 [⟨[], "x", 1⟩] ⟨[], "x", 1⟩
    (List.mem_singleton.mpr rfl) rfl (by decide)

theorem insertKeyed_filter {α β : Type} [LinearOrder β] (key : α → β) (x : α) (k : β)
    (l : List α) :
    (insertKeyed key x l).filter (fun a => decide (key a = k)) =
      if key x = k then x :: l.filter (fun a => decide (key a = k))
      else l.filter (fun a => decide (key a = k)) := by
  induction l with
  | nil =>
    simp only [insertKeyed, List.filter_cons, List.filter_nil, decide_eq_true_eq]
  | cons y ys ih =>
    unfold insertKeyed
    by_cases hlt : key y < key x
    · rw [if_pos hlt]
      by_cases hxk : key x = k
      · have hyk : ¬(key y = k) := by
          rw [← hxk]
          exact ne_of_lt hlt
        rw [List.filter_cons, if_neg (by simp [hyk]), ih, if_pos hxk, if_pos hxk,
          List.filter_cons, if_neg (by simp [hyk])]
      · rw [List.filter_cons, ih, if_neg hxk, if_neg hxk, List.filter_cons]
    · rw [if_neg hlt]
      by_cases hxk : key x = k
      · rw [List.filter_cons, if_pos (by simp [hxk]), if_pos hxk]
      · rw [List.filter_cons, if_neg (by simp [hxk]), if_neg hxk]

theorem sortedKey_filter {α β : Type} [LinearOrder β] (key : α → β) (k : β) (l : List α) :
    (sortedKey key l).filter (fun a => decide (key a = k)) =
      l.filter (fun a => decide (key a = k)) := by
  induction l with
  | nil => rfl
  | cons x xs ih =>
    unfold sortedKey
    rw [insertKeyed_filter]
    by_cases hxk : key x = k
    · rw [if_pos hxk, ih, List.filter_cons, if_pos (by simp [hxk])]
    · rw [if_neg hxk, ih, List.filter_cons, if_neg (by simp [hxk])]

/-- C9: the pipeline is deterministic (equal inputs give equal outputs),
and both sorts are stable: blocks sharing a `center_y` key keep their
original relative order after the top-to-bottom sort, and blocks sharing
a `bbox.min_x` key keep their original relative order after the
within-line sort. -/
theorem process_deterministic_and_stable :
    (∀ rs : List OcrResult, analyze_layout rs = analyze_layout rs) ∧
    (∀ (blocks : List Block) (k : ℚ),
      (sortedKey Block.center_y blocks).filter (fun b => decide (b.center_y = k)) =
        blocks.filter (fun b => decide (b.center_y = k))) ∧
    (∀ (line : List Block) (k : Int),
      (sortedKey (fun b => b.bbox.x1) line).filter (fun b => decide (b.bbox.x1 = k)) =
        line.filter (fun b => decide (b.bbox.x1 = k))) :=
  ⟨fun _ => rfl, fun blocks k => sortedKey_filter Block.center_y k blocks,
    fun line k => sortedKey_filter (fun b => b.bbox.x1) k line⟩

end OCR

namespace OCR

theorem mkBlock_conf (r : OcrResult) (c : ℚ) :
    mkBlock { r with conf := c } =
      (mkBlock r).map (Option.map (fun b => { b with conf := c })) := by
  by_cases hstrip : pyStrip r.text = ""
  · simp [mkBlock, hstrip]
  · cases hb : r.box with
    | nil => simp [mkBlock, hstrip, hb]
    | cons p ps => simp [mkBlock, hstrip, hb]

theorem mkBlock_sim (r1 r2 : OcrResult) (h : sameExceptConf r1 r2) :
    (mkBlock r1 = none ∧ mkBlock r2 = none) ∨
    (mkBlock r1 = some none ∧ mkBlock r2 = some none) ∨
    (∃ b1 b2, mkBlock r1 = some (some b1) ∧ mkBlock r2 = some (some b2) ∧ blockSim b1 b2) := by
  obtain ⟨hbox, htext⟩ := h
  have hr1 : r1 = { r2 with conf := r1.conf } := by
    obtain ⟨b1, t1, c1⟩ := r1
    obtain ⟨b2, t2, c2⟩ := r2
    simp only at hbox htext
    simp [hbox, htext]
  have hmb : mkBlock r1 =
      (mkBlock r2).map (Option.map (fun b => { b with conf := r1.conf })) := by
    conv_lhs => rw [hr1]
    exact mkBlock_conf r2 r1.conf
  rw [hmb]
  cases hm : mkBlock r2 with
  | none => exact Or.inl ⟨rfl, rfl⟩
  | some ob =>
    cases ob with
    | none => exact Or.inr (Or.inl ⟨rfl, rfl⟩)
    | some b =>
      exact Or.inr (Or.inr ⟨{ b with conf := r1.conf }, b, rfl, rfl, rfl, rfl, rfl, rfl⟩)

theorem buildBlocks_sim (rs1 rs2 : List OcrResult) (h : List.Forall₂ sameExceptConf rs1 rs2) :
    (buildBlocks rs1 = none ∧ buildBlocks rs2 = none) ∨
    (∃ bs1 bs2, buildBlocks rs1 = some bs1 ∧ buildBlocks rs2 = some bs2 ∧
      List.Forall₂ blockSim bs1 bs2) := by
  induction h with
  | nil => exact Or.inr ⟨[], [], rfl, rfl, List.Forall₂.nil⟩
  | @cons a b l1 l2 hr hrs ih =>
    rcases mkBlock_sim a b hr with ⟨h1, h2⟩ | ⟨h1, h2⟩ | ⟨b1, b2, h1, h2, hsim⟩
    · left
      constructor
      · unfold buildBlocks; rw [h1]
      · unfold buildBlocks; rw [h2]
    · rcases ih with ⟨ih1, ih2⟩ | ⟨bs1, bs2, ih1, ih2, ihsim⟩
      · left
        constructor
        · unfold buildBlocks; rw [h1]; exact ih1
        · unfold buildBlocks; rw [h2]; exact ih2
      · refine Or.inr ⟨bs1, bs2, ?_, ?_, ihsim⟩
        · unfold buildBlocks; rw [h1]; exact ih1
        · unfold buildBlocks; rw [h2]; exact ih2
    · rcases ih with ⟨ih1, ih2⟩ | ⟨bs1, bs2, ih1, ih2, ihsim⟩
      · left
        constructor
        · unfold buildBlocks; rw [h1, ih1]; rfl
        · unfold buildBlocks; rw [h2, ih2]; rfl
      · refine Or.inr ⟨b1 :: bs1, b2 :: bs2, ?_, ?_, List.Forall₂.cons hsim ihsim⟩
        · unfold buildBlocks; rw [h1, ih1]; rfl
        · unfold buildBlocks; rw [h2, ih2]; rfl

theorem insertKeyed_sim {β : Type} [LinearOrder β] (key : Block → β)
    (hkey : ∀ a b, blockSim a b → key a = key b)
    (x y : Block) (hxy : blockSim x y) :
    ∀ (l1 l2 : List Block), List.Forall₂ blockSim l1 l2 →
      List.Forall₂ blockSim (insertKeyed key x l1) (insertKeyed key y l2) := by
  intro l1 l2 hl
  induction hl with
  | nil => exact List.Forall₂.cons hxy List.Forall₂.nil
  | @cons a b t1 t2 ha hl ih =>
    unfold insertKeyed
    have hk1 : key a = key b := hkey a b ha
    have hk2 : key x = key y := hkey x y hxy
    by_cases hlt : key a < key x
    · rw [if_pos hlt, if_pos (by rw [← hk1, ← hk2]; exact hlt)]
      exact List.Forall₂.cons ha ih
    · rw [if_neg hlt, if_neg (by rw [← hk1, ← hk2]; exact hlt)]
      exact List.Forall₂.cons hxy (List.Forall₂.cons ha hl)

theorem sortedKey_sim {β : Type} [LinearOrder β] (key : Block → β)
    (hkey : ∀ a b, blockSim a b → key a = key b) :
    ∀ (l1 l2 : List Block), List.Forall₂ blockSim l1 l2 →
      List.Forall₂ blockSim (sortedKey key l1) (sortedKey key l2) := by
  intro l1 l2 h
  induction h with
  | nil => exact List.Forall₂.nil
  | @cons a b t1 t2 ha hl ih => exact insertKeyed_sim key hkey a b ha _ _ ih

theorem lineY_sim (b1 b2 : Block) (h : blockSim b1 b2) : lineY b1 = lineY b2 := by
  unfold lineY
  rw [h.2.1]

theorem groupGo_sim (t : ℚ) (bs1 bs2 : List Block) (h : List.Forall₂ blockSim bs1 bs2) :
    ∀ (ls1 ls2 : List (List Block)), List.Forall₂ (List.Forall₂ blockSim) ls1 ls2 →
    ∀ (c1 c2 : List Block), List.Forall₂ blockSim c1 c2 →
    ∀ (prev : Option ℚ),
      List.Forall₂ (List.Forall₂ blockSim) (groupGo t bs1 ls1 c1 prev)
        (groupGo t bs2 ls2 c2 prev) := by
  induction h with
  | nil =>
    intro ls1 ls2 hls c1 c2 hc prev
    cases hc with
    | nil => simpa [groupGo] using hls
    | @cons x y t1 t2 hx hxs =>
      simp only [groupGo, List.isEmpty_cons, if_neg]
      exact List.rel_append hls
        (List.Forall₂.cons (List.Forall₂.cons hx hxs) List.Forall₂.nil)
  | @cons b1 b2 t1 t2 hb hbs ih =>
    intro ls1 ls2 hls c1 c2 hc prev
    have hy := lineY_sim b1 b2 hb
    cases prev with
    | none =>
      simp only [groupGo, hy]
      exact ih ls1 ls2 hls (c1 ++ [b1]) (c2 ++ [b2])
        (List.rel_append hc (List.Forall₂.cons hb List.Forall₂.nil)) (some (lineY b2))
    | some py =>
      simp only [groupGo, hy]
      by_cases hth : |lineY b2 - py| < t
      · rw [if_pos hth, if_pos hth]
        exact ih ls1 ls2 hls (c1 ++ [b1]) (c2 ++ [b2])
          (List.rel_append hc (List.Forall₂.cons hb List.Forall₂.nil)) (some (lineY b2))
      · rw [if_neg hth, if_neg hth]
        exact ih (ls1 ++ [c1]) (ls2 ++ [c2])
          (List.rel_append hls (List.Forall₂.cons hc List.Forall₂.nil))
          [b1] [b2] (List.Forall₂.cons hb List.Forall₂.nil) (some (lineY b2))

theorem map_text_sim (l1 l2 : List Block) (h : List.Forall₂ blockSim l1 l2) :
    l1.map Block.text = l2.map Block.text := by
  induction h with
  | nil => rfl
  | @cons a b t1 t2 ha hl ih => simp only [List.map_cons, ha.1, ih]

theorem classifyStep_sim (st : Structured × Bool) (l1 l2 : List Block)
    (h : List.Forall₂ blockSim l1 l2) :
    classifyStep st l1 = classifyStep st l2 := by
  have hs := sortedKey_sim (fun b => b.bbox.x1)
    (fun a b hab => by show a.bbox.x1 = b.bbox.x1; rw [hab.2.1]) l1 l2 h
  have htexts := map_text_sim _ _ hs
  have hlen := List.Forall₂.length_eq hs
  simp only [classifyStep]
  rw [htexts, hlen]

theorem foldl_classify_sim (ls1 ls2 : List (List Block))
    (h : List.Forall₂ (List.Forall₂ blockSim) ls1 ls2) :
    ∀ st : Structured × Bool, List.foldl classifyStep st ls1 = List.foldl classifyStep st ls2 := by
  induction h with
  | nil => intro st; rfl
  | @cons a b t1 t2 ha hl ih =>
    intro st
    rw [List.foldl_cons, List.foldl_cons, classifyStep_sim st a b ha]
    exact ih _

/-- C10: `analyze_layout` is independent of the confidence scores: two
OCR result lists that agree pointwise on geometry and text (and may
differ arbitrarily in confidence) produce identical structured
documents. -/
theorem analyze_layout_conf_independent (rs1 rs2 : List OcrResult)
    (h : List.Forall₂ sameExceptConf rs1 rs2) :
    analyze_layout rs1 = analyze_layout rs2 := by
  rcases buildBlocks_sim rs1 rs2 h with ⟨h1, h2⟩ | ⟨bs1, bs2, h1, h2, hsim⟩
  · rw [analyze_layout, analyze_layout, h1, h2]
  · rw [analyze_layout, analyze_layout, h1, h2, Option.map_some', Option.map_some']
    have hsorted := sortedKey_sim Block.center_y (fun a b hab => hab.2.2.1) bs1 bs2 hsim
    have hgroups := groupGo_sim 24 _ _ hsorted [] [] List.Forall₂.nil [] [] List.Forall₂.nil none
    have := foldl_classify_sim _ _ hgroups initState
    unfold classify group_by_lines
    rw [this]

/-- Witness for C10: two copies of a page whose single fragment carries
different confidence values yield the same document. -/
theorem analyze_layout_conf_independent_witness :
    analyze_layout [⟨[(0, 0), (10, 10)], "hello", 9 / 10⟩] =
      analyze_layout [⟨[(0, 0), (10, 10)], "hello", 1 / 10⟩] :=
  analyze_layout_conf_independent _ _ (List.Forall₂.cons ⟨rfl, rfl⟩ List.Forall₂.nil)

end OCR
